import Mathlib

/-!
Verification of the oak-drone-system repository against its design
specification.

The repository has two source files:

* `src/streaming/stream_rtp_h264.py` — pulls hardware-encoded H.264
  packets from a blocking device queue and writes them to the stdin of a
  spawned GStreamer subprocess (the single pipe sink); on
  `BrokenPipeError` it reports once and returns exit code 4; exit codes
  are 2 (gst-launch-1.0 missing), 3 (no subprocess stdin), 4 (broken
  pipe), 0 (stopped by signal).
* `src/camera/view_rgb.py` — a keypress-driven display loop with
  snapshot capture (`c`), recording toggle (`r`) and quit (`q`).

The embedding below models the control flow of these scripts directly:
pure functions over explicit event traces. Frame payloads are abstracted
to their sequence index (the scripts never inspect frame contents).
-/

/-! ## Model of `stream_rtp_h264.py` `main()` -/

/-- Observable actions of one run of `main()`: building the DepthAI
pipeline, spawning the GStreamer subprocess, pulling packet `n` from the
device queue (`q.get()`), writing packet `n` to the subprocess stdin
(`gst.stdin.write`), printing the BrokenPipe error report, releasing the
device (exit of `with dai.Device(...)`), closing the subprocess stdin and
terminating the subprocess (the `finally` block). -/
inductive Effect where
  | buildPipeline
  | spawnGst
  | pull (n : Nat)
  | write (n : Nat)
  | reportBrokenPipe
  | releaseDevice
  | closeStdin
  | terminateGst
deriving DecidableEq, Repr

/-- The relay loop of `main()` (lines 131–142): while the stop flag is
unset, pull a packet and write it to the sink; a `BrokenPipeError` at
packet `brokenAt` prints one error report and returns exit code 4.

`fuel` counts the iterations until the stop flag first reads true at the
top-of-loop check; `n` is the sequence index of the next packet. Returns
the loop's effect trace and the exit code (0 when the loop ends by the
stop flag). -/
def relayAux (brokenAt : Option Nat) (n : Nat) : Nat → List Effect × Nat
  | 0 => ([], 0)
  | fuel + 1 =>
    if brokenAt = some n then
      ([Effect.pull n, Effect.reportBrokenPipe], 4)
    else
      let rest := relayAux brokenAt (n + 1) fuel
      (Effect.pull n :: Effect.write n :: rest.1, rest.2)

/-- The relay loop started at packet 0. -/
def relayLoop (stopAt : Nat) (brokenAt : Option Nat) : List Effect × Nat :=
  relayAux brokenAt 0 stopAt

/-- Sequence indices pulled from the device queue, in order. -/
def pulledOf (es : List Effect) : List Nat :=
  es.filterMap fun e =>
    match e with
    | Effect.pull n => some n
    | _ => none

/-- Sequence indices written to the pipe sink, in order. -/
def writtenOf (es : List Effect) : List Nat :=
  es.filterMap fun e =>
    match e with
    | Effect.write n => some n
    | _ => none

/-- Number of BrokenPipe error reports in a trace. -/
def reportsOf (es : List Effect) : Nat :=
  (es.filter fun e => e == Effect.reportBrokenPipe).length

/-- Whether a `BrokenPipeError` occurs strictly before the stop flag is
seen (so the loop ends by the failure, not by the flag). -/
def brokenBefore (brokenAt : Option Nat) (stopAt : Nat) : Bool :=
  match brokenAt with
  | none => false
  | some m => m < stopAt

/-- The whole of `main()` after argument parsing (lines 104–156).
`gstFound` models `shutil_which("gst-launch-1.0")` succeeding;
`stdinOpen` models `gst.stdin is not None`; `closeErr` and `termErr`
model exceptions raised by `gst.stdin.close()` / `gst.terminate()` in the
`finally` block — both are swallowed by `except Exception: pass`, so they
cannot change the outcome. Returns the effect trace and the return value
of `main()`. -/
def mainRun (gstFound stdinOpen : Bool) (stopAt : Nat) (brokenAt : Option Nat)
    (closeErr termErr : Bool) : List Effect × Nat :=
  if !gstFound then
    ([], 2)
  else if !stdinOpen then
    ([Effect.buildPipeline, Effect.spawnGst], 3)
  else
    let loop := relayLoop stopAt brokenAt
    (Effect.buildPipeline :: Effect.spawnGst :: loop.1 ++
      [Effect.releaseDevice, Effect.closeStdin, Effect.terminateGst],
     loop.2)

/-! ### Basic lemmas about the relay loop -/

/-- When no broken pipe occurs in the window `[n, n+fuel)`, the loop
pulls and writes every packet of the window in order and exits 0. -/
theorem relayAux_clean (brokenAt : Option Nat) (n fuel : Nat)
    (h : ∀ m, brokenAt = some m → ¬(n ≤ m ∧ m < n + fuel)) :
    relayAux brokenAt n fuel =
      ((List.range' n fuel).flatMap (fun m => [Effect.pull m, Effect.write m]), 0) := by
  induction fuel generalizing n with
  | zero => simp [relayAux]
  | succ k ih =>
    have hne : ¬(brokenAt = some n) := by
      intro hb
      exact h n hb ⟨Nat.le_refl n, by omega⟩
    have hrec := ih (n + 1) (by
      intro m hm hmem
      exact h m hm ⟨by omega, by omega⟩)
    simp only [relayAux, if_neg hne, hrec, List.range'_succ]
    simp

/-- When the broken pipe occurs at packet `m` inside the window, the loop
pulls packets `n..m`, writes `n..m-1`, reports once, and exits 4. -/
theorem relayAux_broken (m n fuel : Nat) (h1 : n ≤ m) (h2 : m < n + fuel) :
    relayAux (some m) n fuel =
      ((List.range' n (m - n)).flatMap (fun i => [Effect.pull i, Effect.write i]) ++
        [Effect.pull m, Effect.reportBrokenPipe], 4) := by
  induction fuel generalizing n with
  | zero => omega
  | succ k ih =>
    by_cases hn : m = n
    · subst hn
      simp [relayAux, Nat.sub_self]
    · have hne : ¬((some m : Option Nat) = some n) := by simp [hn]
      have hrec := ih (n + 1) (by omega) (by omega)
      simp only [relayAux, if_neg hne, hrec]
      have hmn : m - n = (m - (n + 1)) + 1 := by omega
      rw [hmn, List.range'_succ]
      simp

theorem pulledOf_append (a b : List Effect) :
    pulledOf (a ++ b) = pulledOf a ++ pulledOf b := by
  simp [pulledOf]

theorem writtenOf_append (a b : List Effect) :
    writtenOf (a ++ b) = writtenOf a ++ writtenOf b := by
  simp [writtenOf]

theorem reportsOf_append (a b : List Effect) :
    reportsOf (a ++ b) = reportsOf a + reportsOf b := by
  simp [reportsOf]

/-- Pulled indices of a clean-window trace. -/
theorem pulledOf_flat (l : List Nat) :
    pulledOf (l.flatMap (fun m => [Effect.pull m, Effect.write m])) = l := by
  induction l with
  | nil => rfl
  | cons x xs ih =>
    rw [List.flatMap_cons, pulledOf_append, ih]
    rfl

/-- Written indices of a clean-window trace. -/
theorem writtenOf_flat (l : List Nat) :
    writtenOf (l.flatMap (fun m => [Effect.pull m, Effect.write m])) = l := by
  induction l with
  | nil => rfl
  | cons x xs ih =>
    rw [List.flatMap_cons, writtenOf_append, ih]
    rfl

/-- Report count of a clean-window trace is zero. -/
theorem reportsOf_flat (l : List Nat) :
    reportsOf (l.flatMap (fun m => [Effect.pull m, Effect.write m])) = 0 := by
  induction l with
  | nil => rfl
  | cons x xs ih =>
    rw [List.flatMap_cons, reportsOf_append, ih]
    rfl

/-! ## Model of the per-sink bounded queue with drop-oldest policy

Modelled from the spec: the repository delegates all queue behavior to
the SDK (`view_rgb.py` line 34: `getOutputQueue(name="rgb", maxSize=4,
blocking=False)`), so the delivery algorithm of §4.1 — "If the queue is
full and policy is `drop-oldest`: evict the oldest queued frame for that
sink, enqueue the new one, increment that sink's drop counter" — has no
in-repository implementation and is embedded from the spec's words. -/

/-- A per-sink bounded queue: maximum depth, currently queued frames
(oldest first) and the drop counter. -/
structure SinkQ where
  depth : Nat
  queue : List Nat
  drops : Nat
deriving DecidableEq, Repr

/-- Modelled from the spec: one delivery attempt to a drop-oldest sink.
If the queue has room the frame is enqueued; if it is full, the oldest
queued frame is evicted, the new frame is enqueued and the drop counter
is incremented. -/
def enqueueDropOldest (s : SinkQ) (f : Nat) : SinkQ :=
  if s.queue.length < s.depth then
    SinkQ.mk s.depth (s.queue ++ [f]) s.drops
  else
    SinkQ.mk s.depth (s.queue.tail ++ [f]) (s.drops + 1)

/-- Deliver a whole burst of frames to a drop-oldest sink that does not
drain in between. -/
def feedBurst (s : SinkQ) (frames : List Nat) : SinkQ :=
  frames.foldl enqueueDropOldest s

/-! ## Model of `shutil_which` (`stream_rtp_h264.py` lines 159–166)

The filesystem is abstracted as a predicate `fs : String → Bool` holding
exactly on the paths for which `full.exists() and os.access(full, X_OK)`
is true. `os.pathsep` is `":"` on the target platform (Linux /
Raspberry Pi). -/

/-- Split of `os.environ["PATH"]` on `os.pathsep`. -/
def splitPath (path : String) : List String :=
  path.splitOn ":"

/-- Joining a directory and a file name: `str(Path(p) / cmd)`. -/
def joinPath (p cmd : String) : String :=
  if p = "" then cmd
  else if p.endsWith "/" then p ++ cmd
  else p ++ "/" ++ cmd

/-- The scan loop of `shutil_which`: try each directory left to right. -/
def whichAux (fs : String → Bool) (cmd : String) : List String → Option String
  | [] => none
  | p :: ps =>
    let full := joinPath p cmd
    if fs full then some full else whichAux fs cmd ps

/-- Function `shutil_which(cmd)` as a pure function of `cmd`, the `PATH` string
and the filesystem predicate. -/
def shutil_which (fs : String → Bool) (path cmd : String) : Option String :=
  whichAux fs cmd (splitPath path)

/-- The specification's description of `shutil_which`, written from the
claim: the result is `dir/cmd` for the first directory `dir` in `PATH`
(split on the separator, scanned left to right) whose joined path
satisfies the filesystem predicate, and `none` when no directory
qualifies. Used only to compare with `shutil_which`. -/
def whichSpec (fs : String → Bool) (path cmd : String) : Option String :=
  match (splitPath path).find? (fun p => fs (joinPath p cmd)) with
  | some p => some (joinPath p cmd)
  | none => none

/-! ## Model of `view_rgb.py`

`main()` computes one timestamp at session start (line 44), derives the
video filename from it once (line 50), then loops: pull a frame, display
it, read one key, handle `q`/`c`/`r`, and finally write the frame to the
video writer when one is open (lines 77–79). `capture_image` (lines
88–102) derives its own filename from the timestamp at call time.

Wall-clock time is modelled explicitly: `datetime.now()` returns a
microsecond-resolution instant, while `strftime("%Y%m%d_%H%M%S")`
formats only down to the second, discarding `micro`. -/

/-- A `datetime.now()` instant, to microsecond resolution. -/
structure Time where
  year : Nat
  month : Nat
  day : Nat
  hour : Nat
  minute : Nat
  second : Nat
  micro : Nat
deriving DecidableEq, Repr

/-- Zero-pad the decimal representation of `n` to width `w`. -/
def padNum (w n : Nat) : String :=
  let s := toString n
  String.mk (List.replicate (w - s.length) '0') ++ s

/-- Format `t.strftime("%Y%m%d_%H%M%S")`: second resolution, `micro` is
discarded. -/
def fmtTimestamp (t : Time) : String :=
  padNum 4 t.year ++ padNum 2 t.month ++ padNum 2 t.day ++ "_" ++
    padNum 2 t.hour ++ padNum 2 t.minute ++ padNum 2 t.second

/-- Line 50: `f"data/videos/.._video.avi"` from the session timestamp. -/
def videoFilename (sessionTime : Time) : String :=
  "data/videos/" ++ fmtTimestamp sessionTime ++ "_video.avi"

/-- Lines 97–98: the snapshot filename from the capture-time
timestamp. -/
def snapFilename (now : Time) : String :=
  "data/images/" ++ fmtTimestamp now ++ ".jpg"

/-- One key event per loop iteration: `cv2.waitKey` returning `q`, `c`,
`r`, or anything else (no key / other key). -/
inductive Key where
  | q
  | c
  | r
  | other
deriving DecidableEq, Repr

/-- Program point at which a file event happens: during key handling
(the `if key == ord(..)` body) or in the after-loop cleanup. -/
inductive VPhase where
  | onKey
  | atSessionEnd
deriving DecidableEq, Repr

/-- Observable file actions of a `view_rgb.py` session, tagged with the
loop iteration `step` at which they occur. `createVideo` is the
`cv2.VideoWriter(...)` constructor (which opens the target file),
`writeVideo` is `out.write(frame)`, `releaseVideo` is `out.release()`,
`snapshotWrite` is the `cv2.imwrite` inside `capture_image`. -/
inductive VEvent where
  | createVideo (name : String) (step : Nat) (phase : VPhase)
  | writeVideo (name : String) (step : Nat)
  | releaseVideo (name : String) (step : Nat) (phase : VPhase)
  | snapshotWrite (name : String) (step : Nat)
deriving DecidableEq, Repr

/-- Lines 77–79: after key handling, write the current frame when a
writer is open. -/
def frameWriteEvents (out : Option String) (step : Nat) : List VEvent :=
  match out with
  | none => []
  | some n => [VEvent.writeVideo n step]

/-- Lines 81–83: after the loop, release the writer when still open. -/
def sessionEndEvents (step : Nat) (out : Option String) : List VEvent :=
  match out with
  | none => []
  | some n => [VEvent.releaseVideo n step VPhase.atSessionEnd]

/-- The main loop of `view_rgb.py` (lines 56–83) over a finite key
schedule. `fname` is the video filename fixed at session start; `out` is
the current `out` variable (`none` = not recording, `some n` = recording
to `n`). Each list entry supplies the key read that iteration and the
wall-clock instant at which `capture_image` would call
`datetime.now()`. `q` breaks out of the loop; exhausting the schedule
models closing the session. Both run the after-loop release. -/
def viewLoop (fname : String) : Nat → Option String → List (Key × Time) → List VEvent
  | step, out, [] => sessionEndEvents step out
  | step, out, (k, now) :: rest =>
    match k with
    | Key.q => sessionEndEvents step out
    | Key.c =>
      VEvent.snapshotWrite (snapFilename now) step ::
        (frameWriteEvents out step ++ viewLoop fname (step + 1) out rest)
    | Key.r =>
      match out with
      | none =>
        VEvent.createVideo fname step VPhase.onKey ::
          (frameWriteEvents (some fname) step ++
            viewLoop fname (step + 1) (some fname) rest)
      | some n =>
        VEvent.releaseVideo n step VPhase.onKey ::
          viewLoop fname (step + 1) none rest
    | Key.other =>
      frameWriteEvents out step ++ viewLoop fname (step + 1) out rest

/-- A whole session: the video filename is computed exactly once, from
the session-start timestamp, before the loop. -/
def viewRun (sessionTime : Time) (inputs : List (Key × Time)) : List VEvent :=
  viewLoop (videoFilename sessionTime) 0 none inputs

/-- Names of the video files created during a session, in order. -/
def createsOf (es : List VEvent) : List String :=
  es.filterMap fun e =>
    match e with
    | VEvent.createVideo n _ _ => some n
    | _ => none

/-- Number of `out.release()` calls in a trace. -/
def releaseCount (es : List VEvent) : Nat :=
  (es.filterMap fun e =>
    match e with
    | VEvent.releaseVideo n _ _ => some n
    | _ => none).length

/-- Number of snapshot writes in a trace. -/
def snapshotCount (es : List VEvent) : Nat :=
  (es.filterMap fun e =>
    match e with
    | VEvent.snapshotWrite n _ => some n
    | _ => none).length

/-- Count of `createVideo` events whose phase is NOT the key-handling phase
(i.e., creations that did not happen at the start signal). -/
def nonKeyCreates (es : List VEvent) : Nat :=
  (es.filterMap fun e =>
    match e with
    | VEvent.createVideo _ _ VPhase.onKey => none
    | VEvent.createVideo n _ _ => some n
    | _ => none).length

/-! ### Lemmas about the view session -/

theorem createsOf_append (a b : List VEvent) :
    createsOf (a ++ b) = createsOf a ++ createsOf b := by
  simp [createsOf]

theorem createsOf_frameWrite (out : Option String) (step : Nat) :
    createsOf (frameWriteEvents out step) = [] := by
  cases out <;> rfl

theorem createsOf_sessionEnd (step : Nat) (out : Option String) :
    createsOf (sessionEndEvents step out) = [] := by
  cases out <;> rfl

/-- Every `cv2.VideoWriter` constructed during the loop targets the
session's single video filename. -/
theorem creates_eq_fname (fname : String) :
    ∀ (inputs : List (Key × Time)) (step : Nat) (out : Option String),
      ∀ n ∈ createsOf (viewLoop fname step out inputs), n = fname := by
  intro inputs
  induction inputs with
  | nil =>
    intro step out n hn
    rw [viewLoop, createsOf_sessionEnd] at hn
    exact absurd hn (List.not_mem_nil n)
  | cons kt rest ih =>
    intro step out n hn
    obtain ⟨k, now⟩ := kt
    cases k with
    | q =>
      rw [viewLoop, createsOf_sessionEnd] at hn
      exact absurd hn (List.not_mem_nil n)
    | c =>
      rw [viewLoop] at hn
      simp only [createsOf, List.filterMap_cons] at hn
      rw [show (List.filterMap _ (frameWriteEvents out step ++
            viewLoop fname (step + 1) out rest) : List String) =
          createsOf (frameWriteEvents out step ++ viewLoop fname (step + 1) out rest)
          from rfl, createsOf_append, createsOf_frameWrite] at hn
      exact ih (step + 1) out n (by simpa using hn)
    | r =>
      cases out with
      | none =>
        rw [viewLoop] at hn
        simp only [createsOf, List.filterMap_cons] at hn
        rw [show (List.filterMap _ (frameWriteEvents (some fname) step ++
              viewLoop fname (step + 1) (some fname) rest) : List String) =
            createsOf (frameWriteEvents (some fname) step ++
              viewLoop fname (step + 1) (some fname) rest)
            from rfl, createsOf_append, createsOf_frameWrite] at hn
        simp only [List.nil_append, List.mem_cons] at hn
        cases hn with
        | inl h => exact h
        | inr h => exact ih (step + 1) (some fname) n h
      | some m =>
        rw [viewLoop] at hn
        simp only [createsOf, List.filterMap_cons] at hn
        exact ih (step + 1) none n (by simpa [createsOf] using hn)
    | other =>
      rw [viewLoop, createsOf_append, createsOf_frameWrite] at hn
      exact ih (step + 1) out n (by simpa using hn)

theorem releaseCount_append (a b : List VEvent) :
    releaseCount (a ++ b) = releaseCount a + releaseCount b := by
  simp [releaseCount]

theorem releaseCount_frameWrite (out : Option String) (step : Nat) :
    releaseCount (frameWriteEvents out step) = 0 := by
  cases out <;> rfl

theorem releaseCount_sessionEnd (step : Nat) (out : Option String) :
    releaseCount (sessionEndEvents step out) = if out.isSome then 1 else 0 := by
  cases out <;> rfl

theorem snapshotCount_append (a b : List VEvent) :
    snapshotCount (a ++ b) = snapshotCount a + snapshotCount b := by
  simp [snapshotCount]

theorem snapshotCount_frameWrite (out : Option String) (step : Nat) :
    snapshotCount (frameWriteEvents out step) = 0 := by
  cases out <;> rfl

theorem snapshotCount_sessionEnd (step : Nat) (out : Option String) :
    snapshotCount (sessionEndEvents step out) = 0 := by
  cases out <;> rfl

theorem nonKeyCreates_append (a b : List VEvent) :
    nonKeyCreates (a ++ b) = nonKeyCreates a + nonKeyCreates b := by
  simp [nonKeyCreates]

theorem nonKeyCreates_frameWrite (out : Option String) (step : Nat) :
    nonKeyCreates (frameWriteEvents out step) = 0 := by
  cases out <;> rfl

theorem nonKeyCreates_sessionEnd (step : Nat) (out : Option String) :
    nonKeyCreates (sessionEndEvents step out) = 0 := by
  cases out <;> rfl

/-- Writer lifecycle balance: every writer open at entry or created
during the loop is released exactly once (at a stop toggle or at session
close). -/
theorem creates_releases_balance (fname : String) :
    ∀ (inputs : List (Key × Time)) (step : Nat) (out : Option String),
      (createsOf (viewLoop fname step out inputs)).length +
          (if out.isSome then 1 else 0) =
        releaseCount (viewLoop fname step out inputs) := by
  intro inputs
  induction inputs with
  | nil =>
    intro step out
    rw [viewLoop, createsOf_sessionEnd, releaseCount_sessionEnd]
    simp
  | cons kt rest ih =>
    intro step out
    obtain ⟨k, now⟩ := kt
    cases k with
    | q =>
      rw [viewLoop, createsOf_sessionEnd, releaseCount_sessionEnd]
      simp
    | c =>
      rw [viewLoop]
      have hc : createsOf (VEvent.snapshotWrite (snapFilename now) step ::
          (frameWriteEvents out step ++ viewLoop fname (step + 1) out rest)) =
          createsOf (viewLoop fname (step + 1) out rest) := by
        simp only [createsOf, List.filterMap_cons]
        rw [show (List.filterMap _ (frameWriteEvents out step ++
              viewLoop fname (step + 1) out rest) : List String) =
            createsOf (frameWriteEvents out step ++ viewLoop fname (step + 1) out rest)
            from rfl, createsOf_append, createsOf_frameWrite]
        simp [createsOf]
      have hr : releaseCount (VEvent.snapshotWrite (snapFilename now) step ::
          (frameWriteEvents out step ++ viewLoop fname (step + 1) out rest)) =
          releaseCount (viewLoop fname (step + 1) out rest) := by
        simp only [releaseCount, List.filterMap_cons]
        rw [show (List.filterMap _ (frameWriteEvents out step ++
              viewLoop fname (step + 1) out rest) : List String).length =
            releaseCount (frameWriteEvents out step ++ viewLoop fname (step + 1) out rest)
            from rfl, releaseCount_append, releaseCount_frameWrite]
        simp [releaseCount]
      rw [hc, hr]
      exact ih (step + 1) out
    | r =>
      cases out with
      | none =>
        rw [viewLoop]
        have hc : createsOf (VEvent.createVideo fname step VPhase.onKey ::
            (frameWriteEvents (some fname) step ++
              viewLoop fname (step + 1) (some fname) rest)) =
            fname :: createsOf (viewLoop fname (step + 1) (some fname) rest) := by
          simp only [createsOf, List.filterMap_cons]
          rw [show (List.filterMap _ (frameWriteEvents (some fname) step ++
                viewLoop fname (step + 1) (some fname) rest) : List String) =
              createsOf (frameWriteEvents (some fname) step ++
                viewLoop fname (step + 1) (some fname) rest)
              from rfl, createsOf_append, createsOf_frameWrite]
          simp [createsOf]
        have hr : releaseCount (VEvent.createVideo fname step VPhase.onKey ::
            (frameWriteEvents (some fname) step ++
              viewLoop fname (step + 1) (some fname) rest)) =
            releaseCount (viewLoop fname (step + 1) (some fname) rest) := by
          simp only [releaseCount, List.filterMap_cons]
          rw [show (List.filterMap _ (frameWriteEvents (some fname) step ++
                viewLoop fname (step + 1) (some fname) rest) : List String).length =
              releaseCount (frameWriteEvents (some fname) step ++
                viewLoop fname (step + 1) (some fname) rest)
              from rfl, releaseCount_append, releaseCount_frameWrite]
          simp [releaseCount]
        rw [hc, hr]
        have h2 := ih (step + 1) (some fname)
        simp at h2 ⊢
        omega
      | some m =>
        rw [viewLoop]
        have hc : createsOf (VEvent.releaseVideo m step VPhase.onKey ::
            viewLoop fname (step + 1) none rest) =
            createsOf (viewLoop fname (step + 1) none rest) := by
          simp [createsOf, List.filterMap_cons]
        have hr : releaseCount (VEvent.releaseVideo m step VPhase.onKey ::
            viewLoop fname (step + 1) none rest) =
            releaseCount (viewLoop fname (step + 1) none rest) + 1 := by
          simp [releaseCount, List.filterMap_cons]
        rw [hc, hr]
        have h2 := ih (step + 1) none
        simp at h2 ⊢
        omega
    | other =>
      rw [viewLoop, createsOf_append, createsOf_frameWrite, releaseCount_append,
        releaseCount_frameWrite]
      simpa using ih (step + 1) out

/-- Every `cv2.VideoWriter` construction happens in the key-handling
phase (the body of `if key == ord('r')`), never anywhere else. -/
theorem creates_all_on_key (fname : String) :
    ∀ (inputs : List (Key × Time)) (step : Nat) (out : Option String),
      nonKeyCreates (viewLoop fname step out inputs) = 0 := by
  intro inputs
  induction inputs with
  | nil =>
    intro step out
    rw [viewLoop, nonKeyCreates_sessionEnd]
  | cons kt rest ih =>
    intro step out
    obtain ⟨k, now⟩ := kt
    cases k with
    | q => rw [viewLoop, nonKeyCreates_sessionEnd]
    | c =>
      rw [viewLoop]
      simp only [nonKeyCreates, List.filterMap_cons]
      rw [show (List.filterMap _ (frameWriteEvents out step ++
            viewLoop fname (step + 1) out rest) : List String).length =
          nonKeyCreates (frameWriteEvents out step ++ viewLoop fname (step + 1) out rest)
          from rfl, nonKeyCreates_append, nonKeyCreates_frameWrite, ih (step + 1) out]
    | r =>
      cases out with
      | none =>
        rw [viewLoop]
        simp only [nonKeyCreates, List.filterMap_cons]
        rw [show (List.filterMap _ (frameWriteEvents (some fname) step ++
              viewLoop fname (step + 1) (some fname) rest) : List String).length =
            nonKeyCreates (frameWriteEvents (some fname) step ++
              viewLoop fname (step + 1) (some fname) rest)
            from rfl, nonKeyCreates_append, nonKeyCreates_frameWrite,
            ih (step + 1) (some fname)]
      | some m =>
        rw [viewLoop]
        simp only [nonKeyCreates, List.filterMap_cons]
        rw [show (List.filterMap _ (viewLoop fname (step + 1) none rest) :
              List String).length =
            nonKeyCreates (viewLoop fname (step + 1) none rest)
            from rfl, ih (step + 1) none]
    | other =>
      rw [viewLoop, nonKeyCreates_append, nonKeyCreates_frameWrite, ih (step + 1) out]

/-- Each `c` key processed before the loop ends performs exactly one
snapshot write. -/
theorem snapshot_per_command (fname : String) :
    ∀ (inputs : List (Key × Time)) (step : Nat) (out : Option String),
      snapshotCount (viewLoop fname step out inputs) =
        (inputs.takeWhile (fun kt => !(kt.1 == Key.q))).countP
          (fun kt => kt.1 == Key.c) := by
  intro inputs
  induction inputs with
  | nil =>
    intro step out
    rw [viewLoop, snapshotCount_sessionEnd]
    rfl
  | cons kt rest ih =>
    intro step out
    obtain ⟨k, now⟩ := kt
    cases k with
    | q =>
      rw [viewLoop, snapshotCount_sessionEnd]
      simp [List.takeWhile_cons]
    | c =>
      rw [viewLoop]
      simp only [snapshotCount, List.filterMap_cons, List.length_cons]
      rw [show (List.filterMap _ (frameWriteEvents out step ++
            viewLoop fname (step + 1) out rest) : List String).length =
          snapshotCount (frameWriteEvents out step ++ viewLoop fname (step + 1) out rest)
          from rfl]
      rw [snapshotCount_append, snapshotCount_frameWrite, ih (step + 1) out]
      simp [List.takeWhile_cons, List.countP_cons]
    | r =>
      cases out with
      | none =>
        rw [viewLoop]
        simp only [snapshotCount, List.filterMap_cons]
        rw [show (List.filterMap _ (frameWriteEvents (some fname) step ++
              viewLoop fname (step + 1) (some fname) rest) : List String).length =
            snapshotCount (frameWriteEvents (some fname) step ++
              viewLoop fname (step + 1) (some fname) rest)
            from rfl]
        rw [snapshotCount_append, snapshotCount_frameWrite, ih (step + 1) (some fname)]
        simp [List.takeWhile_cons, List.countP_cons]
      | some m =>
        rw [viewLoop]
        simp only [snapshotCount, List.filterMap_cons]
        rw [show (List.filterMap _ (viewLoop fname (step + 1) none rest) :
              List String).length =
            snapshotCount (viewLoop fname (step + 1) none rest)
            from rfl, ih (step + 1) none]
        simp [List.takeWhile_cons, List.countP_cons]
    | other =>
      rw [viewLoop, snapshotCount_append, snapshotCount_frameWrite, ih (step + 1) out]
      simp [List.takeWhile_cons, List.countP_cons]

/-! ### Further helper lemmas -/

/-- The relay loop's exit code is 4 exactly when the broken pipe occurs
before the stop flag is seen, and 0 otherwise. -/
theorem relayLoop_code (stopAt : Nat) (brokenAt : Option Nat) :
    (relayLoop stopAt brokenAt).2 = if brokenBefore brokenAt stopAt then 4 else 0 := by
  cases brokenAt with
  | none =>
    rw [relayLoop, relayAux_clean none 0 stopAt (by intro m hm; cases hm)]
    rfl
  | some m =>
    by_cases h : m < stopAt
    · rw [relayLoop, relayAux_broken m 0 stopAt (Nat.zero_le m) (by omega)]
      simp [brokenBefore, h]
    · rw [relayLoop, relayAux_clean (some m) 0 stopAt
        (by intro x hx hmem; cases hx; omega)]
      simp [brokenBefore, h]

/-- The relay loop never emits device-release or teardown effects (those
happen outside the loop). -/
theorem relayAux_no_teardown (brokenAt : Option Nat) :
    ∀ (fuel n : Nat),
      ((relayAux brokenAt n fuel).1.all
        (fun e => !(e == Effect.releaseDevice))) = true := by
  intro fuel
  induction fuel with
  | zero => intro n; rfl
  | succ k ih =>
    intro n
    rw [relayAux]
    by_cases h : brokenAt = some n
    · rw [if_pos h]; rfl
    · rw [if_neg h]
      simp only [List.all_cons, Bool.and_eq_true]
      exact ⟨rfl, rfl, ih (n + 1)⟩

/-- Skipping: `dropWhile` skips a block on which the predicate holds
throughout. -/
theorem dropWhile_all_append {α : Type} (p : α → Bool) (l r : List α)
    (h : l.all p) : (l ++ r).dropWhile p = r.dropWhile p := by
  induction l with
  | nil => rfl
  | cons x xs ih =>
    simp only [List.all_cons, Bool.and_eq_true] at h
    simp [List.dropWhile, h.1, ih h.2]

/-- How many of the first `n` sequence indices are ≥ `s`. -/
theorem range_countP_ge (s : Nat) :
    ∀ n, (List.range n).countP (fun m => decide (s ≤ m)) = n - s := by
  intro n
  induction n with
  | zero => simp
  | succ k ih =>
    rw [List.range_succ, List.countP_append, ih]
    by_cases h : s ≤ k
    · simp [List.countP_cons, h]
      omega
    · simp [List.countP_cons, h]
      omega

/-- Strings with equal character data are equal. -/
theorem string_data_inj {a b : String} (h : a.data = b.data) : a = b := by
  cases a; cases b; exact congrArg String.mk (by simpa using h)

/-- Filenames from `snapFilename` collide exactly when the second-resolution formatted
timestamps collide. -/
theorem snapFilename_eq_iff (t1 t2 : Time) :
    snapFilename t1 = snapFilename t2 ↔ fmtTimestamp t1 = fmtTimestamp t2 := by
  constructor
  · intro h
    have hd := congrArg String.data h
    simp only [snapFilename, String.data_append, List.append_assoc,
      List.append_cancel_left_eq, List.append_cancel_right_eq] at hd
    exact string_data_inj hd
  · intro h
    simp [snapFilename, h]

/-- The scan loop of `shutil_which` returns the joined path of the first
directory accepted by the filesystem predicate. -/
theorem whichAux_eq_find (fs : String → Bool) (cmd : String) :
    ∀ l : List String,
      whichAux fs cmd l =
        match l.find? (fun p => fs (joinPath p cmd)) with
        | some p => some (joinPath p cmd)
        | none => none := by
  intro l
  induction l with
  | nil => rfl
  | cons x xs ih =>
    rw [whichAux, List.find?]
    by_cases h : fs (joinPath x cmd)
    · simp [h]
    · simp only [h, Bool.false_eq_true, if_false, ih]

theorem reportsOf_cons_pre (l : List Effect) :
    reportsOf (Effect.buildPipeline :: Effect.spawnGst :: l) = reportsOf l := rfl

theorem pulledOf_cons_pre (l : List Effect) :
    pulledOf (Effect.buildPipeline :: Effect.spawnGst :: l) = pulledOf l := rfl

theorem writtenOf_cons_pre (l : List Effect) :
    writtenOf (Effect.buildPipeline :: Effect.spawnGst :: l) = writtenOf l := rfl

/-! ## Claim theorems -/

/-- C1 counterexample: with a BrokenPipe at packet 2 and the stop flag
first seen at iteration 10, `main()` returns 4 and the source pull loop
stops after pulling packets 0, 1, 2 — it does not keep running (a clean
run under the same schedule pulls all ten packets). This refutes "the
source pull loop continues running unaffected: a sink failure never
stops the source loop". -/
theorem c1_sink_failure_stops_loop_cex :
    (mainRun true true 10 (some 2) false false).2 = 4 ∧
    pulledOf (mainRun true true 10 (some 2) false false).1 = [0, 1, 2] ∧
    pulledOf (mainRun true true 10 none false false).1 =
      [0, 1, 2, 3, 4, 5, 6, 7, 8, 9] := by
  decide

/-- C1 (amended): if delivery of packet `m` raises BrokenPipe before the
stop flag is seen, the failure is reported exactly once (not repeatedly
per frame), no further packet is offered to the sink, and the relay
terminates with exit code 4 — in this single-sink script a sink failure
stops the source loop rather than leaving it running. -/
theorem c1_sink_failure_reported_once_stops_relay (stopAt m : Nat)
    (h : m < stopAt) (cE tE : Bool) :
    reportsOf (mainRun true true stopAt (some m) cE tE).1 = 1 ∧
    (mainRun true true stopAt (some m) cE tE).2 = 4 ∧
    pulledOf (mainRun true true stopAt (some m) cE tE).1 = List.range (m + 1) ∧
    writtenOf (mainRun true true stopAt (some m) cE tE).1 = List.range m := by
  have hb := relayAux_broken m 0 stopAt (Nat.zero_le m) (by omega)
  have hmain : mainRun true true stopAt (some m) cE tE =
      (Effect.buildPipeline :: Effect.spawnGst ::
        ((relayAux (some m) 0 stopAt).1 ++
          [Effect.releaseDevice, Effect.closeStdin, Effect.terminateGst]),
       (relayAux (some m) 0 stopAt).2) := rfl
  rw [hmain, hb]
  refine ⟨?_, rfl, ?_, ?_⟩
  · rw [reportsOf_cons_pre, reportsOf_append, reportsOf_append, reportsOf_flat]
    rfl
  · rw [pulledOf_cons_pre, pulledOf_append, pulledOf_append, pulledOf_flat]
    rw [show pulledOf [Effect.pull m, Effect.reportBrokenPipe] = [m] from rfl,
      show pulledOf [Effect.releaseDevice, Effect.closeStdin, Effect.terminateGst] =
        ([] : List Nat) from rfl]
    rw [List.append_nil, ← List.range_eq_range', Nat.sub_zero, ← List.range_succ]
  · rw [writtenOf_cons_pre, writtenOf_append, writtenOf_append, writtenOf_flat]
    rw [show writtenOf [Effect.pull m, Effect.reportBrokenPipe] = ([] : List Nat)
        from rfl,
      show writtenOf [Effect.releaseDevice, Effect.closeStdin, Effect.terminateGst] =
        ([] : List Nat) from rfl]
    rw [List.append_nil, List.append_nil, ← List.range_eq_range', Nat.sub_zero]

/-- C1 witness: the amended theorem at stop schedule 10 and failure at
packet 2. -/
theorem c1_sink_failure_reported_once_stops_relay_witness :
    reportsOf (mainRun true true 10 (some 2) true true).1 = 1 :=
  (c1_sink_failure_reported_once_stops_relay 10 2 (by decide) true true).1

/-- C2: with the blocking device queue and blocking pipe write, a run of
`N` loop iterations delivers to the sink exactly the packets it pulled —
all `N`, in order, with no drops — and under a strictly monotone
sequence-number assignment the delivered sequence numbers are strictly
increasing (no reordering, no skips). -/
theorem c2_blocking_sink_receives_all_in_order (seq : Nat → Nat) (N : Nat)
    (hmono : StrictMono seq) :
    writtenOf (relayLoop N none).1 = pulledOf (relayLoop N none).1 ∧
    writtenOf (relayLoop N none).1 = List.range N ∧
    ((writtenOf (relayLoop N none).1).map seq).Pairwise (· < ·) := by
  have hclean := relayAux_clean none 0 N (by intro x hx; cases hx)
  have hw : writtenOf (relayLoop N none).1 = List.range N := by
    rw [relayLoop, hclean]
    exact (writtenOf_flat (List.range' 0 N)).trans (List.range_eq_range' N).symm
  have hp : pulledOf (relayLoop N none).1 = List.range N := by
    rw [relayLoop, hclean]
    exact (pulledOf_flat (List.range' 0 N)).trans (List.range_eq_range' N).symm
  refine ⟨hw.trans hp.symm, hw, ?_⟩
  rw [hw]
  exact List.Pairwise.map seq (fun a b hab => hmono hab) (List.pairwise_lt_range N)

/-- C2 witness: the theorem at the identity sequence numbering and
three frames. -/
theorem c2_blocking_sink_receives_all_in_order_witness :
    writtenOf (relayLoop 3 none).1 = List.range 3 :=
  (c2_blocking_sink_receives_all_in_order (fun n => n) 3 strictMono_id).2.1

/-- C3: a drop-oldest sink of depth 2 fed frames 1..5 without draining
ends holding exactly frames [4, 5] with drop counter 3. (The queueing
logic is modelled from the spec's delivery algorithm; the repository
delegates it to the SDK's bounded non-blocking queue.) -/
theorem c3_drop_oldest_depth2_scenario :
    feedBurst (SinkQ.mk 2 [] 0) [1, 2, 3, 4, 5] = SinkQ.mk 2 [4, 5] 3 := by
  decide

/-- A concrete instant used in concrete runs below. -/
def tEx : Time := Time.mk 2026 10 12 9 30 45 0

/-- A distinct instant in the same formatted second as `tEx` (only the
microsecond field differs). -/
def tEx2 : Time := Time.mk 2026 10 12 9 30 45 500000

/-- C4 counterexample: in the session whose only key event is the
recording start signal `r`, the video file is created (the
`cv2.VideoWriter` constructor runs) during the key-handling phase of
step 0 — i.e. at the moment of the start signal — not lazily at the
first `writeFrame`: the run has exactly one creation and zero creations
outside the key-handling phase. -/
theorem c4_video_created_at_start_signal_cex :
    viewRun tEx [(Key.r, tEx)] =
      [VEvent.createVideo (videoFilename tEx) 0 VPhase.onKey,
       VEvent.writeVideo (videoFilename tEx) 0,
       VEvent.releaseVideo (videoFilename tEx) 1 VPhase.atSessionEnd] ∧
    (createsOf (viewRun tEx [(Key.r, tEx)])).length = 1 ∧
    nonKeyCreates (viewRun tEx [(Key.r, tEx)]) = 0 := by
  refine ⟨rfl, rfl, rfl⟩

/-- C4 (amended): in every session, the target video file is created at
the moment of the start signal (every `createVideo` event happens in the
key-handling phase of an `r` toggle, never elsewhere), and every created
file is finalized — the number of `release` calls (issued at the stop
toggle or at session close) equals the number of creations. -/
theorem c4_video_create_at_signal_finalized_on_stop (sessionTime : Time)
    (inputs : List (Key × Time)) :
    nonKeyCreates (viewRun sessionTime inputs) = 0 ∧
    (createsOf (viewRun sessionTime inputs)).length =
      releaseCount (viewRun sessionTime inputs) := by
  constructor
  · exact creates_all_on_key (videoFilename sessionTime) inputs 0 none
  · have hb := creates_releases_balance (videoFilename sessionTime) inputs 0 none
    simpa using hb

/-- C5 counterexample: two distinct snapshot instants (differing in the
microsecond field) in the same formatted second yield the same snapshot
filename, refuting "for any two distinct snapshot commands, the target
filenames differ". -/
theorem c5_snapshot_same_second_collision_cex :
    tEx ≠ tEx2 ∧ snapFilename tEx = snapFilename tEx2 :=
  ⟨by decide, rfl⟩

/-- C5 (amended): every snapshot command performs a single `writeFrame`
(one snapshot write per processed `c` key), and the timestamp-derived
target names are unique exactly up to the second-resolution format: two
snapshot filenames coincide iff their `"%Y%m%d_%H%M%S"` strings
coincide (so commands in the same formatted second collide). -/
theorem c5_snapshot_unique_iff_formatted_second_differs :
    (∀ t1 t2 : Time,
      snapFilename t1 = snapFilename t2 ↔ fmtTimestamp t1 = fmtTimestamp t2) ∧
    (∀ (sessionTime : Time) (inputs : List (Key × Time)),
      snapshotCount (viewRun sessionTime inputs) =
        (inputs.takeWhile (fun kt => !(kt.1 == Key.q))).countP
          (fun kt => kt.1 == Key.c)) := by
  constructor
  · exact snapFilename_eq_iff
  · intro sessionTime inputs
    exact snapshot_per_command (videoFilename sessionTime) inputs 0 none

/-- C6: stopping the stream is clean — the outcome (trace and exit code)
does not depend on errors raised while closing the sink (they are
swallowed, so stop always succeeds); once the device is released, the
only remaining effects are the sink teardown (close stdin, terminate),
so no frame is pulled or delivered after shutdown of the sink begins;
and signalling stop a second, later time changes nothing (idempotent). -/
theorem c6_stop_ordering_always_succeeds_idempotent (stopAt : Nat)
    (brokenAt : Option Nat) (cE1 tE1 cE2 tE2 : Bool) :
    mainRun true true stopAt brokenAt cE1 tE1 =
        mainRun true true stopAt brokenAt cE2 tE2 ∧
    (mainRun true true stopAt brokenAt cE1 tE1).1.dropWhile
        (fun e => !(e == Effect.releaseDevice)) =
      [Effect.releaseDevice, Effect.closeStdin, Effect.terminateGst] ∧
    writtenOf ((mainRun true true stopAt brokenAt cE1 tE1).1.dropWhile
        (fun e => !(e == Effect.releaseDevice))) = [] ∧
    (∀ s2, stopAt ≤ s2 → relayLoop (min stopAt s2) brokenAt = relayLoop stopAt brokenAt) := by
  have hmain : (mainRun true true stopAt brokenAt cE1 tE1).1 =
      (Effect.buildPipeline :: Effect.spawnGst :: (relayAux brokenAt 0 stopAt).1) ++
        [Effect.releaseDevice, Effect.closeStdin, Effect.terminateGst] := by
    rfl
  have hdw : (mainRun true true stopAt brokenAt cE1 tE1).1.dropWhile
      (fun e => !(e == Effect.releaseDevice)) =
      [Effect.releaseDevice, Effect.closeStdin, Effect.terminateGst] := by
    rw [hmain, dropWhile_all_append]
    · rfl
    · simp only [List.all_cons, Bool.and_eq_true]
      exact ⟨rfl, rfl, relayAux_no_teardown brokenAt stopAt 0⟩
  refine ⟨rfl, hdw, ?_, ?_⟩
  · rw [hdw]
    rfl
  · intro s2 hs2
    rw [Nat.min_eq_left hs2]

/-- C6 witness: a second stop signal at iteration 7 after one at
iteration 5 leaves the run unchanged. -/
theorem c6_stop_ordering_always_succeeds_idempotent_witness :
    relayLoop (min 5 7) none = relayLoop 5 none :=
  (c6_stop_ordering_always_succeeds_idempotent 5 none false false true true).2.2.2
    7 (by decide)

/-- C7: cancellation is cooperative — the stop flag is read only at the
top of each iteration, so if the signal arrives during iteration `s`
(the flag is first read true at iteration `s` or `s + 1`), the loop
pulls exactly the packets `0..stopAt-1` and at most one of them (the
already-requested one) has index ≥ `s`. -/
theorem c7_cooperative_cancel_at_most_one_frame (s stopAt : Nat)
    (h1 : s ≤ stopAt) (h2 : stopAt ≤ s + 1) :
    pulledOf (relayLoop stopAt none).1 = List.range stopAt ∧
    (pulledOf (relayLoop stopAt none).1).countP (fun m => decide (s ≤ m)) ≤ 1 := by
  have hclean := relayAux_clean none 0 stopAt (by intro x hx; cases hx)
  have hp : pulledOf (relayLoop stopAt none).1 = List.range stopAt := by
    rw [relayLoop, hclean]
    exact (pulledOf_flat (List.range' 0 stopAt)).trans (List.range_eq_range' stopAt).symm
  refine ⟨hp, ?_⟩
  rw [hp, range_countP_ge]
  omega

/-- C7 witness: signal during iteration 2, flag seen at iteration 3. -/
theorem c7_cooperative_cancel_at_most_one_frame_witness :
    (pulledOf (relayLoop 3 none).1).countP (fun m => decide (2 ≤ m)) ≤ 1 :=
  (c7_cooperative_cancel_at_most_one_frame 2 3 (by decide) (by decide)).2

/-- C8: the video filename is computed once per session from the
session-start timestamp: every `cv2.VideoWriter` created during the
session — including a second recording after stopping the first —
targets that same path (so the later recording overwrites the file). -/
theorem c8_video_filename_fixed_per_session (sessionTime : Time)
    (inputs : List (Key × Time)) :
    ∀ name ∈ createsOf (viewRun sessionTime inputs),
      name = videoFilename sessionTime :=
  creates_eq_fname (videoFilename sessionTime) inputs 0 none

/-- C8 witness: a session that records twice creates two writers; the
first one targets the session filename. -/
theorem c8_video_filename_fixed_per_session_witness :
    (createsOf (viewRun tEx [(Key.r, tEx), (Key.r, tEx), (Key.r, tEx)])).headI =
      videoFilename tEx :=
  c8_video_filename_fixed_per_session tEx [(Key.r, tEx), (Key.r, tEx), (Key.r, tEx)]
    ((createsOf (viewRun tEx [(Key.r, tEx), (Key.r, tEx), (Key.r, tEx)])).headI)
    (by decide)

/-- C9: the return values of `main()` — 2 when gst-launch-1.0 is missing
(with an empty effect trace: no pipeline is built, no subprocess is
spawned), 3 when the spawned subprocess exposes no stdin, 4 exactly when
a BrokenPipe occurs before the stop flag is seen, 0 when stopped by the
signal, and no run returns anything outside {0, 2, 3, 4}. -/
theorem c9_main_return_codes (stdinOpen : Bool) (stopAt : Nat)
    (brokenAt : Option Nat) (cE tE : Bool) :
    mainRun false stdinOpen stopAt brokenAt cE tE = ([], 2) ∧
    (mainRun true false stopAt brokenAt cE tE).2 = 3 ∧
    (brokenBefore brokenAt stopAt = true →
      (mainRun true true stopAt brokenAt cE tE).2 = 4) ∧
    (brokenBefore brokenAt stopAt = false →
      (mainRun true true stopAt brokenAt cE tE).2 = 0) ∧
    (∀ gF : Bool,
      (mainRun gF stdinOpen stopAt brokenAt cE tE).2 ∈ ([0, 2, 3, 4] : List Nat)) := by
  have hrun : (mainRun true true stopAt brokenAt cE tE).2 =
      (relayLoop stopAt brokenAt).2 := rfl
  refine ⟨rfl, rfl, ?_, ?_, ?_⟩
  · intro hbb
    rw [hrun, relayLoop_code, if_pos hbb]
  · intro hbb
    rw [hrun, relayLoop_code]
    simp [hbb]
  · intro gF
    cases gF with
    | false => simp [mainRun]
    | true =>
      cases stdinOpen with
      | false => simp [mainRun]
      | true =>
        rw [hrun, relayLoop_code]
        by_cases hbb : brokenBefore brokenAt stopAt <;> simp [hbb]

/-- C9 witness: a BrokenPipe at packet 2 before the stop flag at
iteration 5 makes `main()` return 4. -/
theorem c9_main_return_codes_witness :
    (mainRun true true 5 (some 2) false false).2 = 4 :=
  (c9_main_return_codes true 5 (some 2) false false).2.2.1 (by decide)

/-- C10: `shutil_which` is a pure function of the command, the `PATH`
string and the filesystem predicate, and equals its specification: the
joined path of the first directory of `PATH` (split on the separator,
scanned left to right) holding an existing executable file, and `none`
when no directory qualifies. -/
theorem c10_shutil_which_first_match (fs : String → Bool) (path cmd : String) :
    shutil_which fs path cmd = whichSpec fs path cmd := by
  rw [shutil_which, whichSpec, whichAux_eq_find]
